import Mathlib

/-!
Verification of the semantic-search core of the `kiote/hackernews` repository.

The Python sources under verification are `update_index.py` (ingestion pipeline,
vector store, index rebuild, DuckDB mirror, parquet merge) and
`semantic_search.py` (the hybrid query engine).  Each Lean definition below is a
shallow embedding of one Python function, translated line by line from the
source; the doc comment of each definition names the function it embeds.
Floating-point similarity scores are modelled as rationals (only their ordering
is ever used by the code under verification), embedding vectors as opaque
tokens (`Nat`), and file-system state as explicit record fields.
-/

namespace HN

/-! ## Text cleanup (`update_index.py`, `get_text_content`, lines 59-67) -/

/-- The characters stripped by Python's `str.strip()` with no argument. -/
def pyWhitespace (c : Char) : Bool :=
  c = ' ' || c = '\t' || c = '\n' || c = '\r' || c = '\x0b' || c = '\x0c'

/-- Python `str.strip()`: drop whitespace from both ends. -/
def pyStrip (s : List Char) : List Char :=
  ((s.dropWhile pyWhitespace).reverse.dropWhile pyWhitespace).reverse

/-- `matchesAt pat s` is true when `pat` occurs at the head of `s`. -/
def matchesAt : List Char → List Char → Bool
  | [], _ => true
  | _ :: _, [] => false
  | p :: ps, c :: cs => p = c && matchesAt ps cs

/-- Fuel-indexed worker for `pyReplace`; the fuel bounds the number of
positions scanned, so the recursion is structural (and hence the kernel can
evaluate it on concrete inputs).  `pyReplace` always supplies enough fuel. -/
def pyReplaceAux (pat rep : List Char) : Nat → List Char → List Char
  | _, [] => []
  | 0, s => s
  | fuel + 1, c :: cs =>
    if 0 < pat.length ∧ matchesAt pat (c :: cs) then
      rep ++ pyReplaceAux pat rep fuel (List.drop (pat.length - 1) cs)
    else
      c :: pyReplaceAux pat rep fuel cs

/-- Python `str.replace(pat, rep)`: replace all non-overlapping occurrences,
scanning left to right.  The patterns used by the source are all non-empty. -/
def pyReplace (pat rep s : List Char) : List Char :=
  pyReplaceAux pat rep s.length s

/-- `update_index.get_text_content`: combine `title` and `text` (Python
`f"{title} {text}"` inserts one space), strip, apply the six literal entity
substitutions in source order, and return `None` when the resulting string is
empty (`return content if content else None`).  Missing parquet fields are
modelled as `none` (Python `row.get(...) or ""`). -/
def get_text_content (title text : Option String) : Option String :=
  let t := title.getD ""
  let x := text.getD ""
  let content := pyStrip (t.toList ++ [' '] ++ x.toList)
  let content := pyReplace "&#x27;".toList "\x27".toList content
  let content := pyReplace "&quot;".toList "\"".toList content
  let content := pyReplace "&#x2F;".toList "/".toList content
  let content := pyReplace "&amp;".toList "&".toList content
  let content := pyReplace "<p>".toList " ".toList content
  let content := pyReplace "</p>".toList " ".toList content
  if content = [] then none else some (String.mk content)

/-- The substitution table exactly as enumerated by the specification
("applied in order"). -/
def specSubstitutions : List (List Char × List Char) :=
  [("&#x27;".toList, "\x27".toList), ("&quot;".toList, "\"".toList),
   ("&#x2F;".toList, "/".toList), ("&amp;".toList, "&".toList),
   ("<p>".toList, " ".toList), ("</p>".toList, " ".toList)]

/-- Modelled from the spec: the cleaned embedding text — concatenation of
title and text (joined by one space), trimmed, with the substitutions of
`specSubstitutions` applied in order. -/
def specCleanedText (title text : Option String) : List Char :=
  specSubstitutions.foldl (fun s pr => pyReplace pr.1 pr.2 s)
    (pyStrip ((title.getD "").toList ++ [' '] ++ (text.getD "").toList))

/-- Modelled from the spec: "Result must be non-empty after trim; otherwise
the record is skipped" — the skip test re-trims the cleaned text. -/
def specEmbeddingText (title text : Option String) : Option String :=
  if pyStrip (specCleanedText title text) = [] then none
  else some (String.mk (specCleanedText title text))

/-! ## Ingestion pipeline (`update_index.py`, `generate_embeddings_for_new_items`,
lines 134-292)

The model tracks exactly the observable state the claims are about: the skip
set, the ids passed to `model.encode` (in call order), the ids accumulated in
`batch_ids` since the last checkpoint, the content of the on-disk
`incremental_ids.npy` array, the mutable `row_offset` variable, and the start
row chosen for each file.  Embedding vectors are not tracked separately: the
source keeps `batch_embeddings` parallel to `batch_ids` throughout (every
`model.encode` call appends one array and extends `batch_ids` by the same
count), so the id lists determine them.  The checkpoint JSON written at each
save is not needed by any claim and is not modelled. -/

/-- One row of an incremental parquet file, with the fields the pipeline
reads: `id`, `title`, `text`. -/
structure Row where
  id : Nat
  title : Option String
  text : Option String
deriving DecidableEq, Repr

/-- `BATCH_SIZE = 512` (`update_index.py` line 43). -/
def BATCH_SIZE : Nat := 512

/-- `CHECKPOINT_EVERY = 100000` (`update_index.py` line 44). -/
def CHECKPOINT_EVERY : Nat := 100000

/-- The mutable state of `generate_embeddings_for_new_items` that outlives a
single file, plus the ghost field `embedded` (ids sent to `model.encode`, in
order) and `startRows` (the `current_row` chosen for each file, recorded for
the resume claims). -/
structure GenState where
  skipIds : List Nat
  totalProcessed : Nat
  rowOffset : Nat
  batchIds : List Nat
  itemsSinceCheckpoint : Nat
  embedded : List Nat
  incrFileIds : Option (List Nat)
  startRows : List Nat
deriving DecidableEq, Repr

/-- One iteration of the `for idx, row in chunk.iterrows()` body
(lines 192-247).  The second component of the accumulator is the parallel
`(ids, texts)` buffer (the source keeps two parallel lists; the model pairs
them).  When the buffer reaches `BATCH_SIZE` the first `BATCH_SIZE` entries
are embedded (`model.encode(texts[:BATCH_SIZE])`, `batch_ids.extend(ids[:BATCH_SIZE])`)
and, when `items_since_checkpoint` reaches `CHECKPOINT_EVERY`, the pending
batches are saved via `save_incremental_embeddings_atomic` (which concatenates
onto the on-disk arrays) and the skip set absorbs `batch_ids`. -/
def stepRow (acc : GenState × List (Nat × String)) (r : Row) :
    GenState × List (Nat × String) :=
  let st := acc.1
  let buf := acc.2
  if r.id ∈ st.skipIds then acc
  else
    match get_text_content r.title r.text with
    | none => acc
    | some content =>
      let buf := buf ++ [(r.id, content)]
      if BATCH_SIZE ≤ buf.length then
        let batch := (buf.map (fun p => p.1)).take BATCH_SIZE
        let st1 : GenState :=
          { st with
            embedded := st.embedded ++ batch
            batchIds := st.batchIds ++ batch
            totalProcessed := st.totalProcessed + BATCH_SIZE
            itemsSinceCheckpoint := st.itemsSinceCheckpoint + BATCH_SIZE }
        let buf1 := buf.drop BATCH_SIZE
        if CHECKPOINT_EVERY ≤ st1.itemsSinceCheckpoint then
          let st2 : GenState :=
            { st1 with
              incrFileIds := some ((st1.incrFileIds.getD []) ++ st1.batchIds)
              skipIds := st1.skipIds ++ st1.batchIds
              batchIds := []
              itemsSinceCheckpoint := 0 }
          (st2, buf1)
        else (st1, buf1)
      else (st, buf)

/-- The `while len(texts) >= BATCH_SIZE` drain at the end of each file
(lines 250-261): embed full batches only; `items_since_checkpoint` is not
updated there and no checkpoint is taken.  Fuel-indexed so the recursion is
structural; the caller passes the buffer length, which bounds the number of
full batches. -/
def drainAux : Nat → GenState → List (Nat × String) → GenState × List (Nat × String)
  | 0, st, buf => (st, buf)
  | fuel + 1, st, buf =>
    if BATCH_SIZE ≤ buf.length then
      let batch := (buf.map (fun p => p.1)).take BATCH_SIZE
      drainAux fuel
        { st with
          embedded := st.embedded ++ batch
          batchIds := st.batchIds ++ batch
          totalProcessed := st.totalProcessed + BATCH_SIZE }
        (buf.drop BATCH_SIZE)
    else (st, buf)

/-- Processing of one incremental file (lines 169-261): choose `current_row`
(the saved `row_offset` is applied when `row_offset > 0 and total_processed > 0`,
and only then is the `row_offset` variable reset to 0), reset the `(texts, ids)`
buffer, stream the remaining rows in order (the 50000-row chunking only
partitions the iteration and is transparent to the per-row logic), then run the
end-of-file drain.  Note the buffer left over from the previous file is
discarded by the reset — exactly as in the source. -/
def processOneFile (st : GenState) (rows : List Row) :
    GenState × List (Nat × String) :=
  let startSt :=
    if 0 < st.rowOffset ∧ 0 < st.totalProcessed then (st.rowOffset, { st with rowOffset := 0 })
    else (0, st)
  let start := startSt.1
  let st2 : GenState := { startSt.2 with startRows := startSt.2.startRows ++ [start] }
  let res := (rows.drop start).foldl stepRow (st2, [])
  drainAux res.2.length res.1 res.2

/-- The `for pq_file in parquet_files` loop: each file starts with a fresh
buffer, and only the last file's leftover buffer survives to the final
partial batch. -/
def processAllFiles (st : GenState) (files : List (List Row)) :
    GenState × List (Nat × String) :=
  files.foldl (fun acc rows => processOneFile acc.1 rows) (st, [])

/-- The epilogue (lines 263-292): embed the final partial batch if the last
file's buffer is non-empty, then, if any batch was embedded since the last
checkpoint, save it via `save_incremental_embeddings_atomic` (append to the
on-disk arrays).  (`batch_embeddings` is non-empty exactly when `batch_ids`
is: every encode call extends both in parallel.) -/
def finishRun (acc : GenState × List (Nat × String)) : GenState :=
  let st := acc.1
  let buf := acc.2
  let st1 : GenState :=
    if buf = [] then st
    else
      { st with
        embedded := st.embedded ++ buf.map (fun p => p.1)
        batchIds := st.batchIds ++ buf.map (fun p => p.1)
        totalProcessed := st.totalProcessed + buf.length }
  if st1.batchIds = [] then st1
  else { st1 with incrFileIds := some ((st1.incrFileIds.getD []) ++ st1.batchIds) }

/-- `generate_embeddings_for_new_items(parquet_files, existing_ids, model)`:
`incrFile` is the content of `embeddings/incremental_ids.npy` (`none` when the
file does not exist), `existing` the ids loaded from the main and incremental
tiers (`load_existing_ids`), `offset` the checkpoint's `row_offset`.  The
initial skip set is `existing_ids | processed_ids_set` and `total_processed`
starts at the number of distinct already-processed ids (`len` of a Python
set). -/
def runGenerate (incrFile : Option (List Nat)) (existing : List Nat)
    (offset : Nat) (files : List (List Row)) : GenState :=
  let processedSet := (incrFile.getD []).dedup
  let st0 : GenState :=
    { skipIds := existing ++ processedSet
      totalProcessed := processedSet.length
      rowOffset := offset
      batchIds := []
      itemsSinceCheckpoint := 0
      embedded := []
      incrFileIds := incrFile
      startRows := [] }
  finishRun (processAllFiles st0 files)

/-- The ids passed to `model.encode` during one run, in call order.  An id
occurring twice in this list was embedded twice. -/
def generateEmbeddedIds (incrFile : Option (List Nat)) (existing : List Nat)
    (offset : Nat) (files : List (List Row)) : List Nat :=
  (runGenerate incrFile existing offset files).embedded

/-- The start row chosen for each file (`current_row` of lines 177-181), in
file order. -/
def generateStartRows (incrFile : Option (List Nat)) (existing : List Nat)
    (offset : Nat) (files : List (List Row)) : List Nat :=
  (runGenerate incrFile existing offset files).startRows

/-- The content of `embeddings/incremental_ids.npy` when
`generate_embeddings_for_new_items` returns: the function ends with
`if INCR_EMBEDDINGS.exists(): return np.load(...)` and otherwise returns empty
arrays, so `none` models the "no file, empty result" case. -/
def generateFinalIds (incrFile : Option (List Nat)) (existing : List Nat)
    (offset : Nat) (files : List (List Row)) : Option (List Nat) :=
  (runGenerate incrFile existing offset files).incrFileIds

/-! ## Incremental vector store (`update_index.py`,
`save_incremental_embeddings_atomic`, lines 102-124)

Embedding vectors are opaque tokens (`Nat`); only array identity and length
matter to the claims.  A `none` field means the file does not exist.  Each
`np.save` to a temporary name and each `Path.rename` is modelled as one
atomic step; a crash exposes the state after a prefix of the steps.  (An
interrupted `np.save` can leave a partial *temporary* file, which never has a
canonical name, so the canonical fields are accurate at every step.) -/

/-- The four files touched by the incremental append. -/
structure VecFS where
  emb : Option (List Nat)
  ids : Option (List Nat)
  tmpEmb : Option (List Nat)
  tmpIds : Option (List Nat)
deriving DecidableEq, Repr

/-- Lines 106-111: load the existing arrays when *both* canonical files exist
and concatenate (`np.vstack` / `np.concatenate`); otherwise the new arrays
stand alone. -/
def appendContent (fs : VecFS) (newEmb newIds : List Nat) : List Nat × List Nat :=
  if fs.emb.isSome ∧ fs.ids.isSome then
    (fs.emb.getD [] ++ newEmb, fs.ids.getD [] ++ newIds)
  else (newEmb, newIds)

/-- The file-system states exposed after each step of
`save_incremental_embeddings_atomic`: initial, after `np.save(temp_emb)`,
after `np.save(temp_ids)`, after `rename -> INCR_EMBEDDINGS`, and after
`rename -> INCR_IDS` (the successful return).  A crash at any point during
the append observes one of these. -/
def saveStates (fs : VecFS) (newEmb newIds : List Nat) : List VecFS :=
  let c := appendContent fs newEmb newIds
  let s1 : VecFS := { fs with tmpEmb := some c.1 }
  let s2 : VecFS := { s1 with tmpIds := some c.2 }
  let s3 : VecFS := { s2 with emb := some c.1, tmpEmb := none }
  let s4 : VecFS := { s3 with ids := some c.2, tmpIds := none }
  [fs, s1, s2, s3, s4]

/-- `save_incremental_embeddings_atomic` run to completion. -/
def save_incremental_embeddings_atomic (fs : VecFS) (newEmb newIds : List Nat) : VecFS :=
  let c := appendContent fs newEmb newIds
  { fs with emb := some c.1, ids := some c.2, tmpEmb := none, tmpIds := none }

/-! ## Relational mirror (`update_index.py`, `update_duckdb`, lines 384-430,
and the hydration query of `semantic_search.py`, lines 120-131) -/

/-- A source row as read from a parquet file, with the columns the SQL of
`update_duckdb` touches, including the soft-delete flags.  `none` models SQL
NULL. -/
structure SrcRow where
  id : Nat
  type : Option String
  /-- the parquet column `by` (a Lean keyword, hence the different name) -/
  byUser : Option String
  time : Nat
  text : Option String
  title : Option String
  url : Option String
  score : Option Nat
  deleted : Option Bool
  dead : Option Bool
deriving DecidableEq, Repr

/-- A row of the mirror table `hn`: the SELECT list of both insert paths
projects away `deleted` and `dead`. -/
structure MirrorRow where
  id : Nat
  type : Option String
  author : Option String
  time : Nat
  text : Option String
  title : Option String
  url : Option String
  score : Option Nat
deriving DecidableEq, Repr

/-- The SELECT-list projection used by both insert paths. -/
def projectRow (r : SrcRow) : MirrorRow :=
  { id := r.id, type := r.type, author := r.byUser, time := r.time,
    text := r.text, title := r.title, url := r.url, score := r.score }

/-- The SQL predicate `deleted IS NOT TRUE AND dead IS NOT TRUE`
(`IS NOT TRUE` is satisfied by both FALSE and NULL). -/
def pyLive (r : SrcRow) : Bool :=
  !(r.deleted = some true) && !(r.dead = some true)

/-- The `hn` table: its rows in insertion order, plus whether any UNIQUE or
PRIMARY KEY constraint on `id` exists.  This flag is what DuckDB's
`INSERT OR IGNORE` consults: a row is ignored only when it violates such a
constraint. -/
structure DuckTable where
  rows : List MirrorRow
  uniqueId : Bool
deriving DecidableEq, Repr

/-- Lines 388-402: `CREATE TABLE hn AS SELECT ... WHERE deleted IS NOT TRUE
AND dead IS NOT TRUE`.  CREATE TABLE AS defines no key or unique constraint,
so `uniqueId := false`. -/
def createTableAs (mainRows : List SrcRow) : DuckTable :=
  { rows := (mainRows.filter pyLive).map projectRow, uniqueId := false }

/-- DuckDB semantics of inserting one row with `OR IGNORE`: skipped only when
a unique constraint on `id` exists and a row with that id is present. -/
def insertRowOrIgnore (t : DuckTable) (r : MirrorRow) : DuckTable :=
  if t.uniqueId ∧ r.id ∈ t.rows.map (fun x => x.id) then t
  else { t with rows := t.rows ++ [r] }

/-- Lines 411-426: `INSERT OR IGNORE INTO hn SELECT ... FROM read_parquet(f)
WHERE deleted IS NOT TRUE AND dead IS NOT TRUE`, one statement per file. -/
def insertOrIgnoreFile (t : DuckTable) (file : List SrcRow) : DuckTable :=
  ((file.filter pyLive).map projectRow).foldl insertRowOrIgnore t

/-- `update_duckdb(parquet_files)`: create the table from the main parquet
when the database file does not yet exist, then upsert each incremental
file.  `db = none` models a missing `hn_search.db`. -/
def update_duckdb (db : Option DuckTable) (mainRows : List SrcRow)
    (files : List (List SrcRow)) : DuckTable :=
  files.foldl insertOrIgnoreFile (db.getD (createTableAs mainRows))

/-- The hydration query of `semantic_search.search` (lines 124-128):
`SELECT ... FROM hn WHERE id IN (id_list) AND type = 'filter'` (the type
clause present only when a filter was given).  Result order is the table
scan order; the caller re-orders. -/
def matchesType (typeFilter : Option String) (r : MirrorRow) : Bool :=
  match typeFilter with
  | none => true
  | some f => r.type = some f

/-- Rows returned by the hydration query. -/
def hydrateRows (tableRows : List MirrorRow) (hnIds : List Nat)
    (typeFilter : Option String) : List MirrorRow :=
  tableRows.filter (fun r => hnIds.contains r.id && matchesType typeFilter r)

/-! ## Rebuild decision (`update_index.py`, `main`, lines 465-536) -/

/-- Whether `main()` invokes `rebuild_full_index()` in a run, as a function of
the CLI flags, the pre-run incremental id array, the main/incremental tier
ids (`load_existing_ids`), the checkpoint row offset, and the incremental
files found.  Faithful to the control flow: early return when no files and no
`--rebuild`; the whole embedding block is skipped under `--skip-embeddings`;
the rebuild check sits inside `if len(new_ids) > 0`, where `new_ids` is the
full incremental tier returned by `generate_embeddings_for_new_items`, and
`incr_size = update_incremental_index(...) = len(new_ids)` (the two returned
arrays are parallel).  When `files = []` the source actually aborts with a
`NameError` (`texts` is only assigned inside the file loop) before reaching
the rebuild check, so no rebuild happens — which the model also reports. -/
def mainInvokesRebuild (rebuild : Bool) (threshold : Nat) (skipEmb : Bool)
    (incrFile : Option (List Nat)) (existing : List Nat) (offset : Nat)
    (files : List (List Row)) : Bool :=
  if files.isEmpty && !rebuild then false
  else if skipEmb then false
  else
    let newIds := (generateFinalIds incrFile existing offset files).getD []
    if 0 < newIds.length then rebuild || decide (threshold ≤ newIds.length)
    else false

/-! ## Full index rebuild (`update_index.py`, `rebuild_full_index`,
lines 321-381) -/

/-- The tier files read and written by `rebuild_full_index`.  Vector file
contents are opaque tokens; `incrIndexFile` records whether
`faiss_index_incremental.bin` exists.  The FAISS training/adding itself
(IVF+PQ construction) produces the binary index file and is irrelevant to
the array-level claims. -/
structure IndexFS where
  mainEmb : Option (List Nat)
  mainIds : Option (List Nat)
  incrEmb : Option (List Nat)
  incrIds : Option (List Nat)
  idMapping : Option (List Nat)
  incrIndexFile : Bool
deriving DecidableEq, Repr

/-- `rebuild_full_index`: branch on which embedding files exist (lines
326-343), concatenate main-then-incremental, save the main arrays and the id
mapping (lines 372-374), and unlink the three incremental files (lines
377-379).  The no-embeddings branch prints and returns without touching
anything. -/
def rebuild_full_index (fs : IndexFS) : IndexFS :=
  if fs.mainEmb.isSome ∧ fs.incrEmb.isSome then
    let allEmb := fs.mainEmb.getD [] ++ fs.incrEmb.getD []
    let allIds := fs.mainIds.getD [] ++ fs.incrIds.getD []
    { fs with mainEmb := some allEmb, mainIds := some allIds,
              idMapping := some allIds,
              incrEmb := none, incrIds := none, incrIndexFile := false }
  else if fs.incrEmb.isSome then
    { fs with mainEmb := fs.incrEmb, mainIds := fs.incrIds,
              idMapping := fs.incrIds,
              incrEmb := none, incrIds := none, incrIndexFile := false }
  else if fs.mainEmb.isSome then
    { fs with idMapping := fs.mainIds,
              incrEmb := none, incrIds := none, incrIndexFile := false }
  else fs

/-! ## Corpus merge (`update_index.py`, `merge_parquet_files`, lines 433-462) -/

/-- A parquet file on disk: either fully written rows, or torn by an
interrupted `pq.write_table` (which writes the canonical path in place, not
via a temporary). -/
inductive FileData where
  | intact : List Nat → FileData
  | torn : FileData
deriving DecidableEq, Repr

/-- The files `merge_parquet_files` touches.  `pending` holds the contents of
the `incremental_*.parquet` files in lexicographic order; `archived` the
contents moved into `processed_incremental/`. -/
structure CorpusFS where
  mainFile : Option FileData
  bakFile : Option FileData
  pending : List (List Nat)
  archived : List (List Nat)
deriving DecidableEq, Repr

/-- Rows readable from a file (torn or missing files yield none). -/
def corpusRows : Option FileData → List Nat
  | some (FileData.intact rows) => rows
  | _ => []

/-- States after each `shutil.move` of the archive loop (lines 458-462). -/
def archAux : CorpusFS → List (List Nat) → List CorpusFS
  | _, [] => []
  | fs, f :: rest =>
    let fs1 : CorpusFS := { fs with pending := rest, archived := fs.archived ++ [f] }
    fs1 :: archAux fs1 rest

/-- All intermediate states of `merge_parquet_files`, in execution order: the
state during reading/concatenation (no mutation yet — an error in
`pq.read_table`/`pa.concat_tables` observes the unchanged state), after
`shutil.copy(MAIN_PARQUET, backup)`, the torn state of an interrupted
`pq.write_table` over the canonical name, after the completed write, and
after each archive move. -/
def mergeStates (fs : CorpusFS) : List CorpusFS :=
  if fs.pending = [] then [fs]
  else
    let merged := corpusRows fs.mainFile ++ fs.pending.flatten
    let s2 := if fs.mainFile.isSome then { fs with bakFile := fs.mainFile } else fs
    let sMid : CorpusFS := { s2 with mainFile := some FileData.torn }
    let s3 : CorpusFS := { s2 with mainFile := some (FileData.intact merged) }
    fs :: s2 :: sMid :: s3 :: archAux s3 fs.pending

/-- `merge_parquet_files` run to completion. -/
def merge_parquet_files (fs : CorpusFS) : CorpusFS :=
  if fs.pending = [] then fs
  else
    let merged := corpusRows fs.mainFile ++ fs.pending.flatten
    let s2 := if fs.mainFile.isSome then { fs with bakFile := fs.mainFile } else fs
    { s2 with mainFile := some (FileData.intact merged),
              pending := [], archived := s2.archived ++ fs.pending }

/-! ## Query engine (`semantic_search.py`, `search`, lines 66-151)

Each FAISS index is modelled as an oracle `Nat → List (Int × ℚ)` taking the
requested `k` to the parallel `(indices[0], distances[0])` rows FAISS
returns (similarity scores are inner products; only their ordering matters,
so they are rationals).  The main index is IVF+PQ — approximate, so nothing
beyond FAISS's interface contract (at most `k` result slots) is assumed of
it; the incremental index is handled through the same interface.  Positions
are `Int` because FAISS pads short result lists with `-1`, and Python/numpy
indexing by a negative position wraps around. -/

/-- Python/numpy list indexing `mapping[idx]` for `-len ≤ idx < len`
(negative indices wrap); out-of-range access raises in Python and is given
the junk value 0 here (FAISS never produces it: positions are `-1` or valid).
-/
def pyGet (l : List Nat) (i : Int) : Nat :=
  if 0 ≤ i then l.getD i.toNat 0 else l.getD (l.length - (-i).toNat) 0

/-- `search_limit = limit * 10 if type_filter else limit` (line 88). -/
def searchLimit (limit : Nat) (typeFilter : Option String) : Nat :=
  if typeFilter.isSome then limit * 10 else limit

/-- Lines 92-93 (and 102-103): map FAISS positions back to external ids via
the tier's id array, keeping positions `idx < len(mapping)`, then pair them
with the distances truncated to the same length
(`scores = distances[0][:len(hn_ids)]`). -/
def tierCandidates (mapping : List Nat) (res : List (Int × ℚ)) : List (Nat × ℚ) :=
  let hnIds := (res.filter (fun p => p.1 < (mapping.length : Int))).map
    (fun p => pyGet mapping p.1)
  let scores := (res.map (fun p => p.2)).take hnIds.length
  hnIds.zip scores

/-- Stable insertion into a score-descending list: the new element goes in
front of the first entry whose score is not larger.  `isortDesc` below is
therefore the stable descending sort — the behaviour of Python's
`sorted(..., key=lambda x: x[1], reverse=True)`. -/
def insertDesc (x : Nat × ℚ) : List (Nat × ℚ) → List (Nat × ℚ)
  | [] => [x]
  | y :: ys => if y.2 ≤ x.2 then x :: y :: ys else y :: insertDesc x ys

/-- Python's `sorted` by score, descending, stable. -/
def isortDesc : List (Nat × ℚ) → List (Nat × ℚ)
  | [] => []
  | x :: xs => insertDesc x (isortDesc xs)

/-- Lines 110-115: walk the sorted candidates, keeping the first (hence
best-scored) entry for each id.  `seen` is the `seen_ids` set. -/
def dedupKeepFirst : List (Nat × ℚ) → List Nat → List (Nat × ℚ)
  | [], _ => []
  | p :: rest, seen =>
    if p.1 ∈ seen then dedupKeepFirst rest seen
    else p :: dedupKeepFirst rest (p.1 :: seen)

/-- One entry of the returned result list (the dict of lines 138-147,
restricted to the row fields plus the similarity). -/
structure SearchResult where
  row : MirrorRow
  similarity : ℚ
deriving DecidableEq, Repr

/-- The final ordering loop (lines 134-149): walk `hn_ids` in similarity
order, emit the rows found by the hydration query, and break once
`len(ordered_results) >= limit` — the check runs *after* the append. -/
def orderLoop (dict : Nat → Option MirrorRow) (scoreOf : Nat → ℚ) :
    Nat → List Nat → List SearchResult
  | _, [] => []
  | budget, i :: rest =>
    match dict i with
    | none => orderLoop dict scoreOf budget rest
    | some r =>
      if budget ≤ 1 then [⟨r, scoreOf i⟩]
      else ⟨r, scoreOf i⟩ :: orderLoop dict scoreOf (budget - 1) rest

/-- The merged candidate list of lines 91-104: main-tier candidates, then —
when the incremental index and its id mapping are loaded — incremental-tier
candidates, the latter requested with `min(search_limit, incr_index.ntotal)`
and only when that is positive.  `incrTier` bundles (search oracle, id
mapping, `ntotal`). -/
def allCandidates (mainFn : Nat → List (Int × ℚ)) (mainMap : List Nat)
    (incrTier : Option ((Nat → List (Int × ℚ)) × List Nat × Nat))
    (limit : Nat) (typeFilter : Option String) : List (Nat × ℚ) :=
  let sl := searchLimit limit typeFilter
  tierCandidates mainMap (mainFn sl) ++
    (match incrTier with
     | none => []
     | some t =>
       let isl := min sl t.2.2
       if 0 < isl then tierCandidates t.2.1 (t.1 isl) else [])

/-- `semantic_search.search(query, limit, type_filter)` from the point the
query vector exists: search both tiers, sort by score descending, dedupe by
id keeping the first (best) entry, hydrate from DuckDB (`hydrateRows`), and
emit rows in similarity order up to `limit`.  `result_dict` is a Python dict
comprehension, so a duplicate id in the table keeps the *last* row — hence
the `reverse.find?`.  `mirror` is the `hn` table contents. -/
def semSearch (mainFn : Nat → List (Int × ℚ)) (mainMap : List Nat)
    (incrTier : Option ((Nat → List (Int × ℚ)) × List Nat × Nat))
    (mirror : List MirrorRow) (limit : Nat) (typeFilter : Option String) :
    List SearchResult :=
  let allResults := allCandidates mainFn mainMap incrTier limit typeFilter
  if allResults = [] then []
  else
    let sortedResults := dedupKeepFirst (isortDesc allResults) []
    let hnIds := sortedResults.map (fun p => p.1)
    let scoreOf := fun i => (((sortedResults.find? (fun p => p.1 = i)).getD (0, 0)).2)
    let rows := hydrateRows mirror hnIds typeFilter
    let dict := fun i => rows.reverse.find? (fun r => r.id = i)
    orderLoop dict scoreOf limit hnIds

/-! # Theorems -/

/-! ## C6 — embedding text -/

/-- C6 counterexample: for `title = "<p>"`, `text` missing, the code embeds
the record with text `" "` (the emptiness test runs on the substituted string
without re-trimming), while the claimed rule — skip iff the result is empty
after trimming — says the record is skipped. -/
theorem C6_whitespace_only_embedded :
    get_text_content (some "<p>") none = some " " ∧
    specEmbeddingText (some "<p>") none = none ∧
    get_text_content (some "<p>") none ≠ specEmbeddingText (some "<p>") none := by
  refine ⟨by decide, by decide, by decide⟩

/-- C6 (amended): the embedding text is title and text joined by one space,
trimmed, with the six literal substitutions applied in the listed order; the
record is skipped iff the *resulting string itself* is empty — a result that
is whitespace-only (but non-empty) is still embedded. -/
theorem C6_text_cleanup (title text : Option String) :
    get_text_content title text =
      if specCleanedText title text = [] then none
      else some (String.mk (specCleanedText title text)) := by
  have h : specCleanedText title text =
      pyReplace "</p>".toList " ".toList
        (pyReplace "<p>".toList " ".toList
          (pyReplace "&amp;".toList "&".toList
            (pyReplace "&#x2F;".toList "/".toList
              (pyReplace "&quot;".toList "\"".toList
                (pyReplace "&#x27;".toList "\x27".toList
                  (pyStrip ((title.getD "").toList ++ [' '] ++ (text.getD "").toList))))))) := by
    simp only [specCleanedText, specSubstitutions, List.foldl_cons, List.foldl_nil]
  rw [h]
  rfl

/-! ## C3 — atomicity of the incremental vector-store append -/

/-- C3 counterexample: appending `([20], [2])` to the one-vector store
`(emb = [10], ids = [1])`, the crash point between the two renames exposes
the canonical pair `(emb = [10, 20], ids = [1])`, which is neither the
pre-append nor the post-append pair (and has mismatched lengths). -/
theorem C3_pair_not_atomic :
    ¬ (∀ s ∈ saveStates ⟨some [10], some [1], none, none⟩ [20] [2],
        (s.emb = some [10] ∧ s.ids = some [1]) ∨
        (s.emb = some [10, 20] ∧ s.ids = some [1, 2])) := by
  decide

/-- C3 (amended): each canonical file individually is, at every crash point,
either its pre-append or its post-append content (the temp-then-rename makes
each single file atomic, but the pair is renamed in two steps and can be
observed mixed); on successful return both canonical files hold the appended
arrays, and `len(ids) = len(vecs)` holds provided the new arrays are parallel
and the pre-state pair (when present) was parallel. -/
theorem C3_per_file_atomic (fs : VecFS) (newEmb newIds : List Nat)
    (hnew : newEmb.length = newIds.length)
    (hpre : fs.emb.isSome ∧ fs.ids.isSome →
      (fs.emb.getD []).length = (fs.ids.getD []).length) :
    (∀ s ∈ saveStates fs newEmb newIds,
      (s.emb = fs.emb ∨ s.emb = some (appendContent fs newEmb newIds).1) ∧
      (s.ids = fs.ids ∨ s.ids = some (appendContent fs newEmb newIds).2)) ∧
    (save_incremental_embeddings_atomic fs newEmb newIds).emb
      = some (appendContent fs newEmb newIds).1 ∧
    (save_incremental_embeddings_atomic fs newEmb newIds).ids
      = some (appendContent fs newEmb newIds).2 ∧
    (appendContent fs newEmb newIds).1.length
      = (appendContent fs newEmb newIds).2.length := by
  refine ⟨?_, rfl, rfl, ?_⟩
  · intro s hs
    simp only [saveStates, List.mem_cons, List.mem_singleton, List.not_mem_nil] at hs
    rcases hs with rfl | rfl | rfl | rfl | rfl | h
    · exact ⟨Or.inl rfl, Or.inl rfl⟩
    · exact ⟨Or.inl rfl, Or.inl rfl⟩
    · exact ⟨Or.inl rfl, Or.inl rfl⟩
    · exact ⟨Or.inr rfl, Or.inl rfl⟩
    · exact ⟨Or.inr rfl, Or.inr rfl⟩
    · exact absurd h (by simp)
  · unfold appendContent
    split
    · next h =>
      simp only [List.length_append, hpre h, hnew]
    · exact hnew

/-- C3 witness: the amended theorem applied at the concrete pre-state
`(emb = [10], ids = [1])` with new arrays `([20], [2])` — the successful
return holds the appended pair, with equal lengths. -/
theorem C3_per_file_atomic_witness :
    (save_incremental_embeddings_atomic ⟨some [10], some [1], none, none⟩ [20] [2]).emb
      = some (appendContent ⟨some [10], some [1], none, none⟩ [20] [2]).1 ∧
    (save_incremental_embeddings_atomic ⟨some [10], some [1], none, none⟩ [20] [2]).ids
      = some (appendContent ⟨some [10], some [1], none, none⟩ [20] [2]).2 ∧
    (appendContent ⟨some [10], some [1], none, none⟩ [20] [2]).1.length
      = (appendContent ⟨some [10], some [1], none, none⟩ [20] [2]).2.length :=
  (C3_per_file_atomic ⟨some [10], some [1], none, none⟩ [20] [2]
    (by decide) (by decide)).2

/-! ## C4 — mirror upsert is not idempotent -/

/-- C4: the code evaluated at the failing input.  `CREATE TABLE ... AS`
creates `hn` with no unique constraint on `id`, so `INSERT OR IGNORE` never
ignores anything: upserting the same one-row incremental file twice
duplicates the row, contradicting insert-if-absent/idempotency.  (The
`OR IGNORE` spelling shows the intended semantics; the missing key
constraint defeats it — a code bug.) -/
theorem C4_upsert_not_idempotent :
    (update_duckdb
        (some (update_duckdb none []
          [[⟨1, some "story", some "alice", 100, none, some "t", none, some 5, none, none⟩]]))
        []
        [[⟨1, some "story", some "alice", 100, none, some "t", none, some 5, none, none⟩]]).rows
      ≠ (update_duckdb none []
          [[⟨1, some "story", some "alice", 100, none, some "t", none, some 5, none, none⟩]]).rows ∧
    ((update_duckdb
        (some (update_duckdb none []
          [[⟨1, some "story", some "alice", 100, none, some "t", none, some 5, none, none⟩]]))
        []
        [[⟨1, some "story", some "alice", 100, none, some "t", none, some 5, none, none⟩]]).rows.map
      (fun x => x.id)) = [1, 1] := by
  refine ⟨by decide, by decide⟩

/-! ## C5 — rebuild trigger -/

/-- C5 counterexample: with `--rebuild` given, one incremental file whose
only row is already indexed, and an empty incremental tier, the run embeds
nothing, `len(new_ids) = 0`, and the guarded rebuild check is never reached —
the forced rebuild is silently skipped, contradicting "invoked whenever ...
a rebuild was explicitly requested ... regardless of how many new items were
embedded". -/
theorem C5_forced_rebuild_skipped :
    mainInvokesRebuild true 1000000 false none [5] 0 [[⟨5, some "x", none⟩]] = false := by
  decide

/-- C5 (amended): with at least one incremental file present and embeddings
not skipped, a rebuild is invoked iff the post-run incremental tier is
non-empty **and** (`--rebuild` was given or the tier size reaches the
threshold).  In particular a forced rebuild is dropped whenever the
incremental tier ends the run empty. -/
theorem C5_rebuild_trigger (rebuild : Bool) (threshold : Nat) (skipEmb : Bool)
    (incrFile : Option (List Nat)) (existing : List Nat) (offset : Nat)
    (files : List (List Row)) (hfiles : files ≠ []) :
    mainInvokesRebuild rebuild threshold skipEmb incrFile existing offset files = true ↔
      (skipEmb = false ∧
       0 < ((generateFinalIds incrFile existing offset files).getD []).length ∧
       (rebuild = true ∨
        threshold ≤ ((generateFinalIds incrFile existing offset files).getD []).length)) := by
  have hne : files.isEmpty = false := by
    cases files with
    | nil => exact absurd rfl hfiles
    | cons a l => rfl
  unfold mainInvokesRebuild
  rw [hne, Bool.false_and, if_neg Bool.false_ne_true]
  cases skipEmb with
  | true => simp
  | false =>
    rw [if_neg Bool.false_ne_true]
    by_cases h : 0 < ((generateFinalIds incrFile existing offset files).getD []).length
    · simp [h]
    · simp [h]

/-- C5 witness: the amended trigger characterisation applied at a concrete
run — `--rebuild`, threshold 0, one (empty) incremental file, one id already
in the incremental tier. -/
theorem C5_rebuild_trigger_witness :
    mainInvokesRebuild true 0 false (some [3]) [] 0 [[]] = true ↔
      (false = false ∧
       0 < ((generateFinalIds (some [3]) [] 0 [[]]).getD []).length ∧
       (true = true ∨
        0 ≤ ((generateFinalIds (some [3]) [] 0 [[]]).getD []).length)) :=
  C5_rebuild_trigger true 0 false (some [3]) [] 0 [[]] (by decide)

/-! ## C7 — rebuild postcondition -/

/-- C7: after `rebuild_full_index`, the incremental tier's id array, vector
array and index file are gone, the main arrays are the concatenation of the
old main arrays with the old incremental arrays, and every previously
incremental id appears in the main id array.  The hypotheses are the
file-coupling invariants the pipeline maintains (an id array exists iff its
vector array does; the incremental index file only exists alongside the
incremental arrays). -/
theorem C7_rebuild_postcondition (fs : IndexFS)
    (hincr : fs.incrEmb.isSome ↔ fs.incrIds.isSome)
    (hmain : fs.mainEmb.isSome ↔ fs.mainIds.isSome)
    (hidx : fs.incrIndexFile = true → fs.incrEmb.isSome) :
    (rebuild_full_index fs).incrEmb = none ∧
    (rebuild_full_index fs).incrIds = none ∧
    (rebuild_full_index fs).incrIndexFile = false ∧
    (rebuild_full_index fs).mainIds.getD []
      = fs.mainIds.getD [] ++ fs.incrIds.getD [] ∧
    (rebuild_full_index fs).mainEmb.getD []
      = fs.mainEmb.getD [] ++ fs.incrEmb.getD [] ∧
    (∀ i ∈ fs.incrIds.getD [], i ∈ (rebuild_full_index fs).mainIds.getD []) := by
  unfold rebuild_full_index
  split
  · next h =>
    refine ⟨rfl, rfl, rfl, rfl, rfl, ?_⟩
    intro i hi
    exact List.mem_append_right _ hi
  · next h =>
    split
    · next h2 =>
      have hm : fs.mainEmb = none := by
        cases he : fs.mainEmb with
        | none => rfl
        | some v => exact absurd ⟨by simp [he], h2⟩ h
      have hmi : fs.mainIds = none := by
        cases hi : fs.mainIds with
        | none => rfl
        | some v => exact absurd (hmain.mpr (by simp [hi])) (by simp [hm])
      refine ⟨rfl, rfl, rfl, by simp [hmi], by simp [hm], ?_⟩
      intro i hi
      simpa [hmi] using hi
    · next h2 =>
      have hie : fs.incrEmb = none := by
        cases he : fs.incrEmb with
        | none => rfl
        | some v => exact absurd (by simp [he]) h2
      have hii : fs.incrIds = none := by
        cases hi : fs.incrIds with
        | none => rfl
        | some v => exact absurd (hincr.mpr (by simp [hi])) (by simp [hie])
      split
      · refine ⟨rfl, rfl, rfl, by simp [hii], by simp [hie], ?_⟩
        intro i hi
        simp [hii] at hi
      · refine ⟨hie, hii, ?_, by simp [hii], by simp [hie], ?_⟩
        · cases hf : fs.incrIndexFile with
          | false => rfl
          | true => exact absurd (hidx hf) (by simp [hie])
        · intro i hi
          simp [hii] at hi

/-! ## Ingestion-loop lemmas (for C2 and C10) -/

/-- A row already in the skip set, or with empty cleaned text, leaves the
loop state untouched. -/
theorem stepRow_skip (acc : GenState × List (Nat × String)) (r : Row)
    (h : r.id ∈ acc.1.skipIds ∨ get_text_content r.title r.text = none) :
    stepRow acc r = acc := by
  rcases h with h | h
  · simp [stepRow, h]
  · by_cases hm : r.id ∈ acc.1.skipIds
    · simp [stepRow, hm]
    · simp [stepRow, hm, h]

/-- A collected row under quiet conditions (no checkpoint can fire): the skip
set, `row_offset` and the recorded start rows are unchanged, the combined
count `total_processed + len(buffer)` grows by exactly one, the combined
count `items_since_checkpoint + len(buffer)` grows by at most one, and the
buffer stays shorter than a batch. -/
theorem stepRow_fresh (acc : GenState × List (Nat × String)) (r : Row)
    (hid : r.id ∉ acc.1.skipIds) (htext : get_text_content r.title r.text ≠ none)
    (hchk : acc.1.itemsSinceCheckpoint + acc.2.length + 1 < CHECKPOINT_EVERY)
    (hbuf : acc.2.length < BATCH_SIZE) :
    (stepRow acc r).1.skipIds = acc.1.skipIds ∧
    (stepRow acc r).1.totalProcessed + (stepRow acc r).2.length
      = acc.1.totalProcessed + acc.2.length + 1 ∧
    (stepRow acc r).1.itemsSinceCheckpoint + (stepRow acc r).2.length
      ≤ acc.1.itemsSinceCheckpoint + acc.2.length + 1 ∧
    (stepRow acc r).1.rowOffset = acc.1.rowOffset ∧
    (stepRow acc r).1.startRows = acc.1.startRows ∧
    (stepRow acc r).2.length < BATCH_SIZE := by
  cases ht : get_text_content r.title r.text with
  | none => exact absurd ht htext
  | some content =>
    have hlen : (acc.2 ++ [(r.id, content)]).length = acc.2.length + 1 := by
      simp
    by_cases h3 : BATCH_SIZE ≤ (acc.2 ++ [(r.id, content)]).length
    · have hlen2 : acc.2.length + 1 = BATCH_SIZE := by
        rw [hlen] at h3; omega
      have h4 : ¬ CHECKPOINT_EVERY ≤ acc.1.itemsSinceCheckpoint + BATCH_SIZE := by
        simp only [CHECKPOINT_EVERY, BATCH_SIZE] at *
        omega
      have hstep : stepRow acc r =
          ({ acc.1 with
              embedded := acc.1.embedded ++
                ((acc.2 ++ [(r.id, content)]).map (fun p => p.1)).take BATCH_SIZE
              batchIds := acc.1.batchIds ++
                ((acc.2 ++ [(r.id, content)]).map (fun p => p.1)).take BATCH_SIZE
              totalProcessed := acc.1.totalProcessed + BATCH_SIZE
              itemsSinceCheckpoint := acc.1.itemsSinceCheckpoint + BATCH_SIZE },
            (acc.2 ++ [(r.id, content)]).drop BATCH_SIZE) := by
        simp only [stepRow, if_neg hid, ht, if_pos h3, if_neg h4]
      rw [hstep]
      dsimp only
      have hdrop : ((acc.2 ++ [(r.id, content)]).drop BATCH_SIZE).length = 0 := by
        simp only [List.length_drop, hlen, hlen2]
        omega
      refine ⟨rfl, ?_, ?_, rfl, rfl, ?_⟩
      · rw [hdrop]
        omega
      · rw [hdrop]
        omega
      · rw [hdrop]
        omega
    · have hstep : stepRow acc r = (acc.1, acc.2 ++ [(r.id, content)]) := by
        simp only [stepRow, if_neg hid, ht, if_neg h3]
      rw [hstep]
      dsimp only
      rw [hlen] at h3
      refine ⟨rfl, ?_, ?_, rfl, rfl, ?_⟩
      · rw [hlen]
        omega
      · rw [hlen]
        omega
      · rw [hlen]
        omega

/-- `stepRow_fresh` folded over a list of collectable rows. -/
theorem foldl_fresh (rows : List Row) :
    ∀ (acc : GenState × List (Nat × String)),
      (∀ r ∈ rows, r.id ∉ acc.1.skipIds ∧ get_text_content r.title r.text ≠ none) →
      acc.1.itemsSinceCheckpoint + acc.2.length + rows.length < CHECKPOINT_EVERY →
      acc.2.length < BATCH_SIZE →
      (rows.foldl stepRow acc).1.skipIds = acc.1.skipIds ∧
      (rows.foldl stepRow acc).1.totalProcessed + (rows.foldl stepRow acc).2.length
        = acc.1.totalProcessed + acc.2.length + rows.length ∧
      (rows.foldl stepRow acc).1.itemsSinceCheckpoint + (rows.foldl stepRow acc).2.length
        ≤ acc.1.itemsSinceCheckpoint + acc.2.length + rows.length ∧
      (rows.foldl stepRow acc).1.rowOffset = acc.1.rowOffset ∧
      (rows.foldl stepRow acc).1.startRows = acc.1.startRows ∧
      (rows.foldl stepRow acc).2.length < BATCH_SIZE := by
  induction rows with
  | nil =>
    intro acc h hc hb
    exact ⟨rfl, by simp, by simp, rfl, rfl, hb⟩
  | cons r rest ih =>
    intro acc h hc hb
    have hr := h r (List.mem_cons_self _ _)
    have hc1 : acc.1.itemsSinceCheckpoint + acc.2.length + 1 < CHECKPOINT_EVERY := by
      simp only [List.length_cons] at hc
      omega
    have hstep := stepRow_fresh acc r hr.1 hr.2 hc1 hb
    have hrest := ih (stepRow acc r)
      (fun r' hr' => by
        rw [hstep.1]
        exact h r' (List.mem_cons_of_mem _ hr'))
      (by
        simp only [List.length_cons] at hc
        omega)
      hstep.2.2.2.2.2
    rw [List.foldl_cons]
    refine ⟨?_, ?_, ?_, ?_, ?_, hrest.2.2.2.2.2⟩
    · rw [hrest.1, hstep.1]
    · rw [hrest.2.1]
      simp only [List.length_cons]
      omega
    · have := hrest.2.2.1
      simp only [List.length_cons]
      omega
    · rw [hrest.2.2.2.1, hstep.2.2.2.1]
    · rw [hrest.2.2.2.2.1, hstep.2.2.2.2.1]

/-- The end-of-file drain changes neither the skip set, the row offset, the
start-row log, nor the checkpoint counter, and only grows `total_processed`.
-/
theorem drainAux_frame (fuel : Nat) :
    ∀ (st : GenState) (buf : List (Nat × String)),
      (drainAux fuel st buf).1.skipIds = st.skipIds ∧
      (drainAux fuel st buf).1.rowOffset = st.rowOffset ∧
      (drainAux fuel st buf).1.startRows = st.startRows ∧
      (drainAux fuel st buf).1.itemsSinceCheckpoint = st.itemsSinceCheckpoint ∧
      st.totalProcessed ≤ (drainAux fuel st buf).1.totalProcessed := by
  induction fuel with
  | zero => intro st buf; exact ⟨rfl, rfl, rfl, rfl, Nat.le_refl _⟩
  | succ n ih =>
    intro st buf
    unfold drainAux
    split
    · obtain ⟨a, b, c, d, e⟩ := ih
        { st with
          embedded := st.embedded ++ ((buf.map (fun p => p.1)).take BATCH_SIZE)
          batchIds := st.batchIds ++ ((buf.map (fun p => p.1)).take BATCH_SIZE)
          totalProcessed := st.totalProcessed + BATCH_SIZE }
        (buf.drop BATCH_SIZE)
      exact ⟨a, b, c, d, Nat.le_trans (Nat.le_add_right _ _) e⟩
    · exact ⟨rfl, rfl, rfl, rfl, Nat.le_refl _⟩

/-- The epilogue leaves the start-row log, row offset and skip set alone. -/
theorem finishRun_frame (acc : GenState × List (Nat × String)) :
    (finishRun acc).startRows = acc.1.startRows ∧
    (finishRun acc).rowOffset = acc.1.rowOffset ∧
    (finishRun acc).skipIds = acc.1.skipIds := by
  by_cases h1 : acc.2 = []
  · by_cases h2 : acc.1.batchIds = [] <;> simp [finishRun, h1, h2]
  · by_cases h2 : acc.1.batchIds ++ acc.2.map (fun p => p.1) = [] <;>
      simp [finishRun, h1, h2]

/-- `processOneFile` when the resume condition is false: start at row 0. -/
theorem processOneFile_noResume (st : GenState) (rows : List Row)
    (h : ¬ (0 < st.rowOffset ∧ 0 < st.totalProcessed)) :
    processOneFile st rows =
      (let res := rows.foldl stepRow ({ st with startRows := st.startRows ++ [0] }, []);
       drainAux res.2.length res.1 res.2) := by
  simp [processOneFile, h]

/-- `processOneFile` when the resume condition holds: start at the saved
`row_offset`, then reset it. -/
theorem processOneFile_resume (st : GenState) (rows : List Row)
    (h : 0 < st.rowOffset ∧ 0 < st.totalProcessed) :
    processOneFile st rows =
      (let res := (rows.drop st.rowOffset).foldl stepRow
          ({ st with rowOffset := 0, startRows := st.startRows ++ [st.rowOffset] }, []);
       drainAux res.2.length res.1 res.2) := by
  simp [processOneFile, h]

/-! ## C10 — resume offset -/

/-- C10: the code evaluated at the failing input.  With a stale checkpoint
(`row_offset = 5`) and no incremental id array on disk (`total_processed`
starts at 0), the first file correctly starts at row 0 — but after that file
embeds a full batch, `total_processed` becomes positive, the un-reset
`row_offset` is still 5, and the *second* file starts at row 5: its first
five rows are silently never streamed.  The claim (and the source's own
"Reset for next file" comment) says the offset applies only to the first
file, and that with no id array on disk every file starts at row 0. -/
theorem C10_offset_applied_to_second_file :
    generateStartRows none [] 5
      [(List.range BATCH_SIZE).map (fun i => ⟨i, some "a", none⟩),
       (List.range 6).map (fun i => ⟨100 + i, some "b", none⟩)] = [0, 5] := by
  have htext : get_text_content (some "a") none = some "a" := by decide
  have htextb : get_text_content (some "b") none = some "b" := by decide
  set f1 : List Row := (List.range BATCH_SIZE).map (fun i => ⟨i, some "a", none⟩) with hf1
  set f2 : List Row := (List.range 6).map (fun i => ⟨100 + i, some "b", none⟩) with hf2
  have hf1len : f1.length = BATCH_SIZE := by simp [hf1]
  set st0 : GenState :=
    { skipIds := [], totalProcessed := 0, rowOffset := 5, batchIds := [],
      itemsSinceCheckpoint := 0, embedded := [], incrFileIds := none,
      startRows := [] } with hst0
  have hrun : generateStartRows none [] 5 [f1, f2]
      = (finishRun (processOneFile (processOneFile st0 f1).1 f2)).startRows := by
    simp [generateStartRows, runGenerate, processAllFiles, hst0]
  rw [hrun]
  -- file 1: the resume condition is false (total_processed starts at 0)
  have hfold1 := foldl_fresh f1
    (({ skipIds := [], totalProcessed := 0, rowOffset := 5, batchIds := [],
        itemsSinceCheckpoint := 0, embedded := [], incrFileIds := none,
        startRows := [0] }, []))
    (by
      intro r hr
      simp only [hf1, List.mem_map, List.mem_range] at hr
      obtain ⟨i, -, rfl⟩ := hr
      constructor
      · simp
      · simp [htext])
    (by simp [hf1len, CHECKPOINT_EVERY, BATCH_SIZE])
    (by simp [BATCH_SIZE])
  dsimp only at hfold1
  simp only [hf1len, List.length_nil, Nat.add_zero, Nat.zero_add] at hfold1
  set acc1 := f1.foldl stepRow
    (({ skipIds := [], totalProcessed := 0, rowOffset := 5, batchIds := [],
        itemsSinceCheckpoint := 0, embedded := [], incrFileIds := none,
        startRows := [0] }, [])) with hacc1
  have hdrain1 := drainAux_frame acc1.2.length acc1.1 acc1.2
  set stB := (drainAux acc1.2.length acc1.1 acc1.2).1 with hstB
  have hB : processOneFile st0 f1 = (drainAux acc1.2.length acc1.1 acc1.2) := by
    rw [processOneFile_noResume st0 f1 (by simp [hst0])]
    rw [hacc1, hst0]
    rfl
  -- facts about the state after file 1
  have hBoff : stB.rowOffset = 5 := by
    rw [hstB, hdrain1.2.1, hfold1.2.2.2.1]
  have hBstart : stB.startRows = [0] := by
    rw [hstB, hdrain1.2.2.1, hfold1.2.2.2.2.1]
  have hBskip : stB.skipIds = [] := by
    rw [hstB, hdrain1.1, hfold1.1]
  have hBitems : stB.itemsSinceCheckpoint ≤ BATCH_SIZE := by
    have h3 := hfold1.2.2.1
    rw [hstB, hdrain1.2.2.2.1]
    omega
  have hBtotal : 0 < stB.totalProcessed := by
    have h2 := hfold1.2.1
    have h6 := hfold1.2.2.2.2.2
    have h7 := hdrain1.2.2.2.2
    omega
  -- file 2: the resume condition now holds, so it starts at row 5
  have h2 : processOneFile stB f2 =
      (let res := (f2.drop stB.rowOffset).foldl stepRow
          ({ stB with rowOffset := 0, startRows := stB.startRows ++ [stB.rowOffset] }, []);
       drainAux res.2.length res.1 res.2) :=
    processOneFile_resume stB f2 (by rw [hBoff]; exact ⟨by omega, hBtotal⟩)
  set stC : GenState :=
    { stB with rowOffset := 0, startRows := stB.startRows ++ [stB.rowOffset] } with hstC
  have hCstart : stC.startRows = [0, 5] := by
    simp only [hstC, hBstart, hBoff]
    rfl
  have hfold2 := foldl_fresh (f2.drop stB.rowOffset) (stC, [])
    (by
      intro r hr
      have hr2 : r ∈ f2 := List.mem_of_mem_drop hr
      simp only [hf2, List.mem_map, List.mem_range] at hr2
      obtain ⟨i, -, rfl⟩ := hr2
      refine ⟨?_, by simp [htextb]⟩
      simp [hstC, hBskip])
    (by
      dsimp only
      have hdl : (f2.drop stB.rowOffset).length ≤ f2.length := by
        rw [List.length_drop]
        omega
      have hlf2 : f2.length = 6 := by simp [hf2]
      have hC0 : stC.itemsSinceCheckpoint = stB.itemsSinceCheckpoint := by
        simp [hstC]
      rw [hC0]
      simp only [CHECKPOINT_EVERY, BATCH_SIZE] at hBitems ⊢
      simp only [List.length_nil]
      omega)
    (by simp [BATCH_SIZE])
  have hPB : (processOneFile st0 f1).1 = stB := by rw [hB]
  rw [hPB, (finishRun_frame _).1, h2]
  dsimp only
  rw [(drainAux_frame _ _ _).2.2.1, hfold2.2.2.2.2.1]
  simpa using hCstart

/-! ## Query-engine lemmas (for C1) -/

/-- Inserting into a sorted-descending list yields a permutation of consing. -/
theorem insertDesc_perm (x : Nat × ℚ) (l : List (Nat × ℚ)) :
    List.Perm (insertDesc x l) (x :: l) := by
  induction l with
  | nil => exact List.Perm.refl _
  | cons y ys ih =>
    unfold insertDesc
    split
    · exact List.Perm.refl _
    · exact List.Perm.trans (List.Perm.cons y ih) (List.Perm.swap x y ys)

/-- Insertion preserves the score-descending pairwise order. -/
theorem insertDesc_sorted (x : Nat × ℚ) (l : List (Nat × ℚ))
    (h : l.Pairwise (fun a b => b.2 ≤ a.2)) :
    (insertDesc x l).Pairwise (fun a b => b.2 ≤ a.2) := by
  induction l with
  | nil => simp [insertDesc]
  | cons y ys ih =>
    unfold insertDesc
    split
    · next hxy =>
      refine List.Pairwise.cons ?_ h
      intro z hz
      rcases List.mem_cons.mp hz with rfl | hz
      · exact hxy
      · exact le_trans (List.rel_of_pairwise_cons h hz) hxy
    · next hxy =>
      refine List.Pairwise.cons ?_ (ih (List.Pairwise.of_cons h))
      intro z hz
      have hz2 := (insertDesc_perm x ys).mem_iff.mp hz
      rcases List.mem_cons.mp hz2 with rfl | hz2
      · exact le_of_lt (not_le.mp hxy)
      · exact List.rel_of_pairwise_cons h hz2

/-- The model of Python `sorted(..., reverse=True)` is a permutation. -/
theorem isortDesc_perm (l : List (Nat × ℚ)) : List.Perm (isortDesc l) l := by
  induction l with
  | nil => exact List.Perm.refl _
  | cons x xs ih =>
    exact List.Perm.trans (insertDesc_perm x (isortDesc xs)) (List.Perm.cons x ih)

/-- The model of Python `sorted(..., reverse=True)` is score-descending. -/
theorem isortDesc_sorted (l : List (Nat × ℚ)) :
    (isortDesc l).Pairwise (fun a b => b.2 ≤ a.2) := by
  induction l with
  | nil => simp [isortDesc]
  | cons x xs ih => exact insertDesc_sorted x _ ih

/-- Deduplication selects a sublist. -/
theorem dedup_sublist (l : List (Nat × ℚ)) :
    ∀ seen, List.Sublist (dedupKeepFirst l seen) l := by
  induction l with
  | nil => intro seen; simp [dedupKeepFirst]
  | cons p rest ih =>
    intro seen
    unfold dedupKeepFirst
    split
    · exact (ih seen).cons p
    · exact (ih (p.1 :: seen)).cons₂ p

/-- After deduplication the ids are pairwise distinct and avoid `seen`. -/
theorem dedup_ids (l : List (Nat × ℚ)) :
    ∀ seen, ((dedupKeepFirst l seen).map (fun p => p.1)).Nodup ∧
      (∀ p ∈ dedupKeepFirst l seen, p.1 ∉ seen) := by
  induction l with
  | nil => intro seen; exact ⟨List.nodup_nil, by simp [dedupKeepFirst]⟩
  | cons p rest ih =>
    intro seen
    unfold dedupKeepFirst
    split
    · exact ih seen
    · next hns =>
      obtain ⟨hnd, hni⟩ := ih (p.1 :: seen)
      refine ⟨?_, ?_⟩
      · simp only [List.map_cons, List.nodup_cons]
        refine ⟨?_, hnd⟩
        intro hmem
        simp only [List.mem_map] at hmem
        obtain ⟨q, hq, hq1⟩ := hmem
        exact hni q hq (by rw [hq1]; exact List.mem_cons_self _ _)
      · intro q hq
        rcases List.mem_cons.mp hq with rfl | hq
        · exact hns
        · exact fun hmem => hni q hq (List.mem_cons_of_mem _ hmem)

/-- In a sorted-descending list, the entry kept by deduplication carries the
maximum score among all entries with its id. -/
theorem dedup_max (l : List (Nat × ℚ)) (hs : l.Pairwise (fun a b => b.2 ≤ a.2)) :
    ∀ seen, ∀ p ∈ dedupKeepFirst l seen, ∀ q ∈ l, q.1 = p.1 → q.2 ≤ p.2 := by
  induction l with
  | nil => intro seen p hp; simp [dedupKeepFirst] at hp
  | cons a rest ih =>
    intro seen p hp q hq hqp
    unfold dedupKeepFirst at hp
    split at hp
    · next hin =>
      have hpn : p.1 ∉ seen := (dedup_ids rest seen).2 p hp
      rcases List.mem_cons.mp hq with rfl | hq2
      · exact absurd (by rw [← hqp]; exact hin : p.1 ∈ seen) hpn
      · exact ih (List.Pairwise.of_cons hs) seen p hp q hq2 hqp
    · next hnin =>
      rcases List.mem_cons.mp hp with rfl | hp2
      · rcases List.mem_cons.mp hq with rfl | hq2
        · exact le_refl _
        · exact List.rel_of_pairwise_cons hs hq2
      · have hpn : p.1 ∉ a.1 :: seen := (dedup_ids rest (a.1 :: seen)).2 p hp2
        rcases List.mem_cons.mp hq with rfl | hq2
        · exact absurd (by rw [← hqp]; exact List.mem_cons_self _ _ : p.1 ∈ q.1 :: seen) hpn
        · exact ih (List.Pairwise.of_cons hs) (a.1 :: seen) p hp2 q hq2 hqp

/-- On a list with pairwise-distinct ids, the scores dict of line 118 returns
each entry itself. -/
theorem find_pair (l : List (Nat × ℚ)) (hnd : (l.map (fun p => p.1)).Nodup) :
    ∀ p ∈ l, l.find? (fun q => q.1 = p.1) = some p := by
  induction l with
  | nil => intro p hp; simp at hp
  | cons a rest ih =>
    intro p hp
    simp only [List.map_cons, List.nodup_cons] at hnd
    rcases List.mem_cons.mp hp with rfl | hp2
    · rw [List.find?_cons_of_pos _ (by simp)]
    · have hne : (a.1 = p.1) = False := by
        simp only [eq_iff_iff, iff_false]
        intro he
        exact hnd.1 (he ▸ List.mem_map_of_mem (fun p => p.1) hp2)
      rw [List.find?_cons_of_neg _ (by simp [hne])]
      exact ih hnd.2 p hp2

/-- The ordering loop emits at most `limit` results when `limit ≥ 1`. -/
theorem orderLoop_length (dict : Nat → Option MirrorRow) (s : Nat → ℚ) :
    ∀ (ids : List Nat) (b : Nat), 1 ≤ b → (orderLoop dict s b ids).length ≤ b := by
  intro ids
  induction ids with
  | nil => intro b hb; simp [orderLoop]
  | cons i rest ih =>
    intro b hb
    cases hd : dict i with
    | none =>
      simp only [orderLoop, hd]
      exact ih b hb
    | some r =>
      simp only [orderLoop, hd]
      split
      · next h => simp; omega
      · next h =>
        have h2 := ih (b - 1) (by omega)
        simp only [List.length_cons]
        omega

/-- Every emitted result comes from a dict hit on one of the walked ids, with
its similarity read from the scores dict. -/
theorem orderLoop_mem (dict : Nat → Option MirrorRow) (s : Nat → ℚ) :
    ∀ (ids : List Nat) (b : Nat) (o : SearchResult), o ∈ orderLoop dict s b ids →
      ∃ i ∈ ids, dict i = some o.row ∧ o.similarity = s i := by
  intro ids
  induction ids with
  | nil => intro b o ho; simp [orderLoop] at ho
  | cons i rest ih =>
    intro b o ho
    cases hd : dict i with
    | none =>
      simp only [orderLoop, hd] at ho
      obtain ⟨j, hj, h⟩ := ih b o ho
      exact ⟨j, List.mem_cons_of_mem _ hj, h⟩
    | some r =>
      simp only [orderLoop, hd] at ho
      split at ho
      · simp only [List.mem_singleton] at ho
        subst ho
        exact ⟨i, List.mem_cons_self _ _, hd, rfl⟩
      · rcases List.mem_cons.mp ho with rfl | ho2
        · exact ⟨i, List.mem_cons_self _ _, hd, rfl⟩
        · obtain ⟨j, hj, h⟩ := ih (b - 1) o ho2
          exact ⟨j, List.mem_cons_of_mem _ hj, h⟩

/-- The emitted similarities form a sublist of the walked ids' scores. -/
theorem orderLoop_sims (dict : Nat → Option MirrorRow) (s : Nat → ℚ) :
    ∀ (ids : List Nat) (b : Nat),
      List.Sublist ((orderLoop dict s b ids).map (fun o => o.similarity)) (ids.map s) := by
  intro ids
  induction ids with
  | nil => intro b; simp [orderLoop]
  | cons i rest ih =>
    intro b
    cases hd : dict i with
    | none =>
      simp only [orderLoop, hd, List.map_cons]
      exact (ih b).cons _
    | some r =>
      simp only [orderLoop, hd, List.map_cons]
      split
      · simp only [List.map_cons, List.map_nil]
        exact (List.nil_sublist _).cons₂ _
      · simp only [List.map_cons]
        exact (ih (b - 1)).cons₂ _

/-- The emitted row ids form a sublist of the walked ids. -/
theorem orderLoop_ids (dict : Nat → Option MirrorRow) (s : Nat → ℚ)
    (hdict : ∀ i r, dict i = some r → r.id = i) :
    ∀ (ids : List Nat) (b : Nat),
      List.Sublist ((orderLoop dict s b ids).map (fun o => o.row.id)) ids := by
  intro ids
  induction ids with
  | nil => intro b; simp [orderLoop]
  | cons i rest ih =>
    intro b
    cases hd : dict i with
    | none =>
      simp only [orderLoop, hd]
      exact (ih b).cons _
    | some r =>
      simp only [orderLoop, hd]
      split
      · simp only [List.map_cons, List.map_nil, hdict i r hd]
        exact (List.nil_sublist _).cons₂ _
      · simp only [List.map_cons, hdict i r hd]
        exact (ih (b - 1)).cons₂ _

/-- C1: the query pipeline.  For every query (represented by the two tiers'
FAISS search oracles — the main IVF+PQ index is constrained only by the FAISS
interface contract that a search for `k` neighbours yields at most `k` result
slots), every limit and optional kind filter: the engine returns at most
`limit` results, in similarity-descending order, with pairwise-distinct ids;
every result is a mirror row passing the kind filter; each result's
similarity is the maximum score its id attained among the merged two-tier
candidates (dedup keeps the higher score); and the output depends on the main
oracle only through its value at `k' = limit·10` when a filter is present
(else `limit`), and on the incremental oracle only through its value at that
same request size clamped to the tier size `ntotal` (`min k' n` — the clamp
cannot change an exact index's answer set). -/
theorem C1_query_pipeline
    (mainFn : Nat → List (Int × ℚ)) (mainMap : List Nat)
    (incrTier : Option ((Nat → List (Int × ℚ)) × List Nat × Nat))
    (mirror : List MirrorRow) (limit : Nat) (typeFilter : Option String)
    (hmain : ∀ k, (mainFn k).length ≤ k)
    (res : List SearchResult) (cands : List (Nat × ℚ))
    (hres : res = semSearch mainFn mainMap incrTier mirror limit typeFilter)
    (hcands : cands = allCandidates mainFn mainMap incrTier limit typeFilter) :
    res.length ≤ limit ∧
    res.Pairwise (fun a b => b.similarity ≤ a.similarity) ∧
    (res.map (fun o => o.row.id)).Nodup ∧
    (∀ o ∈ res, o.row ∈ mirror ∧ matchesType typeFilter o.row = true) ∧
    (∀ o ∈ res, ∃ p ∈ cands, p.1 = o.row.id ∧ p.2 = o.similarity ∧
      ∀ q ∈ cands, q.1 = p.1 → q.2 ≤ p.2) ∧
    (∀ mainFn2, mainFn2 (if typeFilter.isSome then limit * 10 else limit)
        = mainFn (if typeFilter.isSome then limit * 10 else limit) →
      semSearch mainFn2 mainMap incrTier mirror limit typeFilter = res) ∧
    (∀ fn mp n fn2, incrTier = some (fn, mp, n) →
      fn2 (min (if typeFilter.isSome then limit * 10 else limit) n)
        = fn (min (if typeFilter.isSome then limit * 10 else limit) n) →
      semSearch mainFn mainMap (some (fn2, mp, n)) mirror limit typeFilter = res) := by
  subst hres
  subst hcands
  have hg : ∀ mainFn2, mainFn2 (if typeFilter.isSome then limit * 10 else limit)
      = mainFn (if typeFilter.isSome then limit * 10 else limit) →
      semSearch mainFn2 mainMap incrTier mirror limit typeFilter
        = semSearch mainFn mainMap incrTier mirror limit typeFilter := by
    intro g hgeq
    have hac : allCandidates g mainMap incrTier limit typeFilter
        = allCandidates mainFn mainMap incrTier limit typeFilter := by
      simp only [allCandidates, searchLimit]
      rw [hgeq]
    simp only [semSearch, hac]
  have hg2 : ∀ fn mp n fn2, incrTier = some (fn, mp, n) →
      fn2 (min (if typeFilter.isSome then limit * 10 else limit) n)
        = fn (min (if typeFilter.isSome then limit * 10 else limit) n) →
      semSearch mainFn mainMap (some (fn2, mp, n)) mirror limit typeFilter
        = semSearch mainFn mainMap incrTier mirror limit typeFilter := by
    intro fn mp n fn2 htier hfeq
    subst htier
    have hac : allCandidates mainFn mainMap (some (fn2, mp, n)) limit typeFilter
        = allCandidates mainFn mainMap (some (fn, mp, n)) limit typeFilter := by
      simp only [allCandidates, searchLimit]
      rw [hfeq]
    simp only [semSearch, hac]
  by_cases hC : allCandidates mainFn mainMap incrTier limit typeFilter = []
  · have hempty : semSearch mainFn mainMap incrTier mirror limit typeFilter = [] := by
      simp [semSearch, hC]
    rw [hempty]
    refine ⟨by simp, by simp, by simp, by simp, by simp, ?_, ?_⟩
    · intro g hgeq; rw [hg g hgeq, hempty]
    · intro fn mp n fn2 htier hfeq; rw [hg2 fn mp n fn2 htier hfeq, hempty]
  · -- the candidate list is non-empty, so limit ≥ 1
    have hlim : 1 ≤ limit := by
      rcases Nat.eq_zero_or_pos limit with h0 | h1
      · exfalso
        apply hC
        have hsl : searchLimit limit typeFilter = 0 := by
          simp [searchLimit, h0]
        have hm0 : mainFn 0 = [] :=
          List.length_eq_zero.mp (Nat.le_zero.mp (hmain 0))
        simp only [allCandidates, hsl, hm0]
        cases incrTier with
        | none => rfl
        | some t =>
          have hmin : (0 : Nat) ⊓ t.2.2 = 0 := by omega
          simp [tierCandidates, hmin]
      · exact h1
    set L := allCandidates mainFn mainMap incrTier limit typeFilter with hL
    set sorted := dedupKeepFirst (isortDesc L) [] with hsortedDef
    set hnIds := sorted.map (fun p => p.1) with hhn
    set scoreOf : Nat → ℚ :=
      fun i => ((sorted.find? (fun p => p.1 = i)).getD (0, 0)).2 with hscoreDef
    set rows := hydrateRows mirror hnIds typeFilter with hrowsDef
    set dict : Nat → Option MirrorRow :=
      fun i => rows.reverse.find? (fun r => r.id = i) with hdictDef
    have hsem : semSearch mainFn mainMap incrTier mirror limit typeFilter
        = orderLoop dict scoreOf limit hnIds := by
      simp only [semSearch]
      rw [← hL, if_neg hC]
    rw [hsem]
    -- structural facts
    have hsorted_pair : sorted.Pairwise (fun a b => b.2 ≤ a.2) :=
      List.Pairwise.sublist (dedup_sublist (isortDesc L) []) (isortDesc_sorted L)
    have hnodup : (sorted.map (fun p => p.1)).Nodup := (dedup_ids (isortDesc L) []).1
    have hdict : ∀ i r, dict i = some r → r.id = i := by
      intro i r h
      have := List.find?_some h
      simpa using this
    have hscore : ∀ p ∈ sorted, scoreOf p.1 = p.2 := by
      intro p hp
      have := find_pair sorted hnodup p hp
      simp only [hscoreDef, this, Option.getD_some]
    refine ⟨?_, ?_, ?_, ?_, ?_, ?_, ?_⟩
    · exact orderLoop_length dict scoreOf hnIds limit hlim
    · -- similarity-descending
      have hmap : hnIds.map scoreOf = sorted.map (fun p => p.2) := by
        rw [hhn, List.map_map]
        exact List.map_congr_left (fun p hp => hscore p hp)
      have hsub := orderLoop_sims dict scoreOf hnIds limit
      rw [hmap] at hsub
      have hP : (sorted.map (fun p => p.2)).Pairwise (fun x y => y ≤ x) :=
        List.pairwise_map.mpr hsorted_pair
      have := List.Pairwise.sublist hsub hP
      exact List.pairwise_map.mp this
    · -- distinct ids
      have hsub := orderLoop_ids dict scoreOf hdict hnIds limit
      exact List.Nodup.sublist hsub (hhn ▸ hnodup)
    · -- hydration
      intro o ho
      obtain ⟨i, hi, hdio, hsim⟩ := orderLoop_mem dict scoreOf hnIds limit o ho
      have hmem := List.mem_of_find?_eq_some hdio
      rw [List.mem_reverse] at hmem
      have hmem2 := hmem
      rw [hrowsDef] at hmem2
      unfold hydrateRows at hmem2
      constructor
      · exact List.mem_of_mem_filter hmem2
      · have := List.of_mem_filter hmem2
        exact (Bool.and_eq_true _ _ |>.mp this).2
    · -- max-score over the merged candidates
      intro o ho
      obtain ⟨i, hi, hdio, hsim⟩ := orderLoop_mem dict scoreOf hnIds limit o ho
      rw [hhn] at hi
      simp only [List.mem_map] at hi
      obtain ⟨p, hp, hpi⟩ := hi
      have hpin : p ∈ L :=
        (isortDesc_perm L).mem_iff.mp ((dedup_sublist (isortDesc L) []).subset hp)
      refine ⟨p, hpin, ?_, ?_, ?_⟩
      · rw [hpi, hdict i o.row hdio]
      · rw [hsim, ← hpi, hscore p hp]
      · intro q hq hqp
        exact dedup_max (isortDesc L) (isortDesc_sorted L) [] p hp q
          ((isortDesc_perm L).mem_iff.mpr hq) hqp
    · exact fun g hgeq => (hg g hgeq).trans hsem
    · exact fun fn mp n fn2 ht hf => (hg2 fn mp n fn2 ht hf).trans hsem

/-- C1 witness: the pipeline guarantees at a concrete one-tier instance. -/
theorem C1_query_pipeline_witness :
    (semSearch (fun k => if k = 0 then [] else [((0 : Int), (1 : ℚ))]) [7] none
        [⟨7, some "story", none, 0, none, none, none, none⟩] 1 none).length ≤ 1 ∧
    ((semSearch (fun k => if k = 0 then [] else [((0 : Int), (1 : ℚ))]) [7] none
        [⟨7, some "story", none, 0, none, none, none, none⟩] 1 none).map
      (fun o => o.row.id)).Nodup :=
  ⟨(C1_query_pipeline _ [7] none _ 1 none
      (fun k => by cases k <;> simp) _ _ rfl rfl).1,
   (C1_query_pipeline _ [7] none _ 1 none
      (fun k => by cases k <;> simp) _ _ rfl rfl).2.2.1⟩

/-! ## C2 — skip set and duplicate embedding -/

/-- Invariant transported by one row step: ids of `S` stay in the skip set
(which only grows), and the embedded list, the buffer and `batch_ids` never
acquire an id of `S`. -/
theorem stepRow_notin (S : List Nat) (acc : GenState × List (Nat × String)) (r : Row)
    (h1 : ∀ i ∈ S, i ∈ acc.1.skipIds)
    (h2 : ∀ i ∈ acc.1.embedded, i ∉ S)
    (h3 : ∀ p ∈ acc.2, p.1 ∉ S)
    (h4 : ∀ i ∈ acc.1.batchIds, i ∉ S) :
    (∀ i ∈ S, i ∈ (stepRow acc r).1.skipIds) ∧
    (∀ i ∈ (stepRow acc r).1.embedded, i ∉ S) ∧
    (∀ p ∈ (stepRow acc r).2, p.1 ∉ S) ∧
    (∀ i ∈ (stepRow acc r).1.batchIds, i ∉ S) := by
  by_cases hm : r.id ∈ acc.1.skipIds
  · rw [stepRow_skip acc r (Or.inl hm)]
    exact ⟨h1, h2, h3, h4⟩
  · cases ht : get_text_content r.title r.text with
    | none =>
      rw [stepRow_skip acc r (Or.inr ht)]
      exact ⟨h1, h2, h3, h4⟩
    | some content =>
      have hrid : r.id ∉ S := fun hS => hm (h1 _ hS)
      have h3' : ∀ p ∈ acc.2 ++ [(r.id, content)], p.1 ∉ S := by
        intro p hp
        rcases List.mem_append.mp hp with hp | hp
        · exact h3 p hp
        · simp only [List.mem_singleton] at hp
          subst hp
          exact hrid
      have hbatch : ∀ i ∈ ((acc.2 ++ [(r.id, content)]).map (fun p => p.1)).take BATCH_SIZE,
          i ∉ S := by
        intro i hi
        have hi2 := List.take_subset _ _ hi
        simp only [List.mem_map] at hi2
        obtain ⟨p, hp, rfl⟩ := hi2
        exact h3' p hp
      by_cases hb : BATCH_SIZE ≤ (acc.2 ++ [(r.id, content)]).length
      · by_cases hc : CHECKPOINT_EVERY ≤ acc.1.itemsSinceCheckpoint + BATCH_SIZE
        · simp only [stepRow, if_neg hm, ht, if_pos hb, if_pos hc]
          refine ⟨?_, ?_, ?_, ?_⟩
          · intro i hS
            exact List.mem_append_left _ (h1 i hS)
          · intro i hi
            rcases List.mem_append.mp hi with hi | hi
            · exact h2 i hi
            · exact hbatch i hi
          · intro p hp
            exact h3' p (List.drop_subset _ _ hp)
          · intro i hi
            simp at hi
        · simp only [stepRow, if_neg hm, ht, if_pos hb, if_neg hc]
          refine ⟨?_, ?_, ?_, ?_⟩
          · exact h1
          · intro i hi
            rcases List.mem_append.mp hi with hi | hi
            · exact h2 i hi
            · exact hbatch i hi
          · intro p hp
            exact h3' p (List.drop_subset _ _ hp)
          · intro i hi
            rcases List.mem_append.mp hi with hi | hi
            · exact h4 i hi
            · exact hbatch i hi
      · simp only [stepRow, if_neg hm, ht, if_neg hb]
        exact ⟨h1, h2, h3', h4⟩

/-- `stepRow_notin` folded over the rows of a file. -/
theorem foldl_notin (S : List Nat) (rows : List Row) :
    ∀ (acc : GenState × List (Nat × String)),
      (∀ i ∈ S, i ∈ acc.1.skipIds) →
      (∀ i ∈ acc.1.embedded, i ∉ S) →
      (∀ p ∈ acc.2, p.1 ∉ S) →
      (∀ i ∈ acc.1.batchIds, i ∉ S) →
      (∀ i ∈ S, i ∈ (rows.foldl stepRow acc).1.skipIds) ∧
      (∀ i ∈ (rows.foldl stepRow acc).1.embedded, i ∉ S) ∧
      (∀ p ∈ (rows.foldl stepRow acc).2, p.1 ∉ S) ∧
      (∀ i ∈ (rows.foldl stepRow acc).1.batchIds, i ∉ S) := by
  induction rows with
  | nil => intro acc h1 h2 h3 h4; exact ⟨h1, h2, h3, h4⟩
  | cons r rest ih =>
    intro acc h1 h2 h3 h4
    have hstep := stepRow_notin S acc r h1 h2 h3 h4
    exact ih (stepRow acc r) hstep.1 hstep.2.1 hstep.2.2.1 hstep.2.2.2

/-- `stepRow_notin`'s analogue for the end-of-file drain. -/
theorem drainAux_notin (S : List Nat) (fuel : Nat) :
    ∀ (st : GenState) (buf : List (Nat × String)),
      (∀ i ∈ S, i ∈ st.skipIds) →
      (∀ i ∈ st.embedded, i ∉ S) →
      (∀ p ∈ buf, p.1 ∉ S) →
      (∀ i ∈ st.batchIds, i ∉ S) →
      (∀ i ∈ S, i ∈ (drainAux fuel st buf).1.skipIds) ∧
      (∀ i ∈ (drainAux fuel st buf).1.embedded, i ∉ S) ∧
      (∀ p ∈ (drainAux fuel st buf).2, p.1 ∉ S) ∧
      (∀ i ∈ (drainAux fuel st buf).1.batchIds, i ∉ S) := by
  induction fuel with
  | zero => intro st buf h1 h2 h3 h4; exact ⟨h1, h2, h3, h4⟩
  | succ n ih =>
    intro st buf h1 h2 h3 h4
    have hbatch : ∀ i ∈ (buf.map (fun p => p.1)).take BATCH_SIZE, i ∉ S := by
      intro i hi
      have hi2 := List.take_subset _ _ hi
      simp only [List.mem_map] at hi2
      obtain ⟨p, hp, rfl⟩ := hi2
      exact h3 p hp
    unfold drainAux
    split
    · exact ih _ _ h1
        (fun i hi => by
          rcases List.mem_append.mp hi with hi | hi
          · exact h2 i hi
          · exact hbatch i hi)
        (fun p hp => h3 p (List.drop_subset _ _ hp))
        (fun i hi => by
          rcases List.mem_append.mp hi with hi | hi
          · exact h4 i hi
          · exact hbatch i hi)
    · exact ⟨h1, h2, h3, h4⟩

/-- One whole file preserves the invariant (the buffer starts empty, and the
resume/start-row bookkeeping does not touch the tracked fields). -/
theorem processOneFile_notin (S : List Nat) (st : GenState) (rows : List Row)
    (h1 : ∀ i ∈ S, i ∈ st.skipIds)
    (h2 : ∀ i ∈ st.embedded, i ∉ S)
    (h4 : ∀ i ∈ st.batchIds, i ∉ S) :
    (∀ i ∈ S, i ∈ (processOneFile st rows).1.skipIds) ∧
    (∀ i ∈ (processOneFile st rows).1.embedded, i ∉ S) ∧
    (∀ p ∈ (processOneFile st rows).2, p.1 ∉ S) ∧
    (∀ i ∈ (processOneFile st rows).1.batchIds, i ∉ S) := by
  by_cases hres : 0 < st.rowOffset ∧ 0 < st.totalProcessed
  · rw [processOneFile_resume st rows hres]
    dsimp only
    have hfold := foldl_notin S (rows.drop st.rowOffset)
      ({ st with rowOffset := 0, startRows := st.startRows ++ [st.rowOffset] }, [])
      h1 h2 (by intro p hp; simp at hp) h4
    exact drainAux_notin S _ _ _ hfold.1 hfold.2.1 hfold.2.2.1 hfold.2.2.2
  · rw [processOneFile_noResume st rows hres]
    dsimp only
    have hfold := foldl_notin S rows
      ({ st with startRows := st.startRows ++ [0] }, [])
      h1 h2 (by intro p hp; simp at hp) h4
    exact drainAux_notin S _ _ _ hfold.1 hfold.2.1 hfold.2.2.1 hfold.2.2.2

/-- The whole file loop preserves the invariant. -/
theorem processAll_notin (S : List Nat) (files : List (List Row)) :
    ∀ (acc : GenState × List (Nat × String)),
      (∀ i ∈ S, i ∈ acc.1.skipIds) →
      (∀ i ∈ acc.1.embedded, i ∉ S) →
      (∀ p ∈ acc.2, p.1 ∉ S) →
      (∀ i ∈ acc.1.batchIds, i ∉ S) →
      (∀ i ∈ S, i ∈ (files.foldl (fun a rows => processOneFile a.1 rows) acc).1.skipIds) ∧
      (∀ i ∈ (files.foldl (fun a rows => processOneFile a.1 rows) acc).1.embedded, i ∉ S) ∧
      (∀ p ∈ (files.foldl (fun a rows => processOneFile a.1 rows) acc).2, p.1 ∉ S) ∧
      (∀ i ∈ (files.foldl (fun a rows => processOneFile a.1 rows) acc).1.batchIds, i ∉ S) := by
  induction files with
  | nil => intro acc h1 h2 h3 h4; exact ⟨h1, h2, h3, h4⟩
  | cons f rest ih =>
    intro acc h1 h2 h3 h4
    have hone := processOneFile_notin S acc.1 f h1 h2 h4
    exact ih (processOneFile acc.1 f) hone.1 hone.2.1 hone.2.2.1 hone.2.2.2

/-- The epilogue never embeds an id of `S`. -/
theorem finishRun_notin (S : List Nat) (acc : GenState × List (Nat × String))
    (h2 : ∀ i ∈ acc.1.embedded, i ∉ S)
    (h3 : ∀ p ∈ acc.2, p.1 ∉ S) :
    ∀ i ∈ (finishRun acc).embedded, i ∉ S := by
  have hbuf : ∀ i ∈ acc.2.map (fun p => p.1), i ∉ S := by
    intro i hi
    simp only [List.mem_map] at hi
    obtain ⟨p, hp, rfl⟩ := hi
    exact h3 p hp
  intro i hi
  unfold finishRun at hi
  by_cases h1 : acc.2 = []
  · simp only [if_pos h1] at hi
    split at hi
    · exact h2 i hi
    · exact h2 i hi
  · simp only [if_neg h1] at hi
    split at hi
    · rcases List.mem_append.mp hi with hi | hi
      · exact h2 i hi
      · exact hbuf i hi
    · rcases List.mem_append.mp hi with hi | hi
      · exact h2 i hi
      · exact hbuf i hi

/-- C2 counterexample: an id occurring twice within one incremental file and
absent from both tiers is embedded twice — `model.encode` receives id 1 two
times, because the skip set is only refreshed at checkpoints.  This refutes
"only the first occurrence is embedded" and "no id is ever embedded twice in
one run". -/
theorem C2_duplicate_embedded_twice :
    generateEmbeddedIds none [] 0 [[⟨1, some "hi", none⟩, ⟨1, some "hi", none⟩]]
      = [1, 1] ∧
    ¬ (generateEmbeddedIds none [] 0
        [[⟨1, some "hi", none⟩, ⟨1, some "hi", none⟩]]).Nodup := by
  refine ⟨by decide, by decide⟩

/-- C2 (amended): a row whose id is in the skip set at the start of the run —
the ids of the main tier (`existing`) together with the ids already in the
on-disk incremental array — is never embedded.  (Within-run duplicates *can*
be embedded more than once: the skip set picks up freshly embedded ids only
at checkpoints, as the counterexample shows.) -/
theorem C2_skip_set_respected (incrFile : Option (List Nat)) (existing : List Nat)
    (offset : Nat) (files : List (List Row)) :
    ∀ i ∈ generateEmbeddedIds incrFile existing offset files,
      i ∉ existing ∧ i ∉ incrFile.getD [] := by
  intro i hi
  simp only [generateEmbeddedIds, runGenerate] at hi
  have hall := processAll_notin (existing ++ (incrFile.getD []).dedup) files
    (({ skipIds := existing ++ (incrFile.getD []).dedup
        totalProcessed := ((incrFile.getD []).dedup).length
        rowOffset := offset
        batchIds := []
        itemsSinceCheckpoint := 0
        embedded := []
        incrFileIds := incrFile
        startRows := [] }, []))
    (fun j hj => hj)
    (by intro j hj; simp at hj)
    (by intro p hp; simp at hp)
    (by intro j hj; simp at hj)
  have hnot := finishRun_notin (existing ++ (incrFile.getD []).dedup) _
    hall.2.1 hall.2.2.1 i hi
  constructor
  · exact fun hmem => hnot (List.mem_append_left _ hmem)
  · exact fun hmem => hnot (List.mem_append_right _ (List.mem_dedup.mpr hmem))

/-- C2 witness: id 2 is in the main tier, so the single-row file with id 1
embeds only ids outside the skip set. -/
theorem C2_skip_set_respected_witness :
    1 ∉ ([2] : List Nat) ∧ 1 ∉ ((none : Option (List Nat)).getD []) :=
  C2_skip_set_respected none [2] 0 [[⟨1, some "a", none⟩]] 1 (by decide)

/-! ## C8 — corpus merge -/

/-- Helper: the archive loop never touches the backup file. -/
theorem archAux_bak (l : List (List Nat)) :
    ∀ (fs : CorpusFS), ∀ s ∈ archAux fs l, s.bakFile = fs.bakFile := by
  induction l with
  | nil => intro fs s hs; simp [archAux] at hs
  | cons f rest ih =>
    intro fs s hs
    simp only [archAux, List.mem_cons] at hs
    rcases hs with rfl | hs
    · rfl
    · exact ih { fs with pending := rest, archived := fs.archived ++ [f] } s hs

/-- C8 counterexample: merging the pending file `[2]` into the main file
`[1]`, the state of an interrupted `pq.write_table` (which writes the
canonical `hacker-news.parquet` in place, not via a temporary) has a torn
main file — neither the prior content `[1]` nor the merged content `[1, 2]`
is readable at the canonical path, contradicting "if an error occurs during
the concatenation or write, the prior main file remains intact". -/
theorem C8_write_error_corrupts_main :
    ¬ (∀ s ∈ mergeStates ⟨some (FileData.intact [1]), none, [[2]], []⟩,
        s.mainFile = some (FileData.intact [1]) ∨
        s.mainFile = some (FileData.intact [1, 2])) := by
  decide

/-- C8 (amended): errors during reading/concatenation (which precede any
mutation) leave the canonical main file intact; an error during the in-place
write can tear the canonical file, but the prior content is then still intact
in the `.bak` sibling, because the old main is *copied* (not moved) to `.bak`
before the write — at every intermediate state at least one of the two paths
holds the prior content intact.  On success the new main file is the old rows
followed by the pending files' rows in order, the `.bak` sibling holds the
prior content (when there was anything to merge), and the consumed
incremental files are archived. -/
theorem C8_merge_crash_safety (fs : CorpusFS) (M : List Nat)
    (hmain : fs.mainFile = some (FileData.intact M)) :
    (∀ s ∈ mergeStates fs,
      s.mainFile = some (FileData.intact M) ∨ s.bakFile = some (FileData.intact M)) ∧
    (merge_parquet_files fs).mainFile = some (FileData.intact (M ++ fs.pending.flatten)) ∧
    (fs.pending ≠ [] → (merge_parquet_files fs).bakFile = some (FileData.intact M)) ∧
    (merge_parquet_files fs).pending = [] ∧
    (merge_parquet_files fs).archived = fs.archived ++ fs.pending := by
  by_cases hp : fs.pending = []
  · refine ⟨?_, ?_, fun h => absurd hp h, ?_, ?_⟩
    · intro s hs
      simp only [mergeStates, if_pos hp, List.mem_singleton] at hs
      subst hs
      exact Or.inl hmain
    · simp [merge_parquet_files, hp, hmain]
    · simp [merge_parquet_files, hp]
    · simp [merge_parquet_files, hp]
  · have hsome : fs.mainFile.isSome := by rw [hmain]; rfl
    refine ⟨?_, ?_, fun _ => ?_, ?_, ?_⟩
    · intro s hs
      simp only [mergeStates, if_neg hp, if_pos hsome, List.mem_cons] at hs
      rcases hs with rfl | rfl | rfl | rfl | hs
      · exact Or.inl hmain
      · exact Or.inl hmain
      · exact Or.inr hmain
      · exact Or.inr hmain
      · right
        rw [archAux_bak _ _ s hs]
        exact hmain
    · simp [merge_parquet_files, hp, hsome, hmain, corpusRows]
    · simp [merge_parquet_files, hp, hsome, hmain]
    · simp [merge_parquet_files, hp, hsome]
    · simp [merge_parquet_files, hp, hsome]

/-- C8 witness: the amended crash-safety statement at a concrete state with
two pending incremental files. -/
theorem C8_merge_crash_safety_witness :
    (∀ s ∈ mergeStates ⟨some (FileData.intact [1]), none, [[2], [3]], []⟩,
      s.mainFile = some (FileData.intact [1]) ∨
      s.bakFile = some (FileData.intact [1])) ∧
    (merge_parquet_files ⟨some (FileData.intact [1]), none, [[2], [3]], []⟩).mainFile
      = some (FileData.intact ([1] ++ ([[2], [3]] : List (List Nat)).flatten)) :=
  ⟨(C8_merge_crash_safety ⟨some (FileData.intact [1]), none, [[2], [3]], []⟩ [1] rfl).1,
   (C8_merge_crash_safety ⟨some (FileData.intact [1]), none, [[2], [3]], []⟩ [1] rfl).2.1⟩

/-! ## C9 — mirror liveness -/

/-- Helper: a row of a table extended by `insertRowOrIgnore`-folding a list
of rows is an old row or a member of the list. -/
theorem foldl_insert_mem (l : List MirrorRow) :
    ∀ (t : DuckTable) (r : MirrorRow),
      r ∈ (l.foldl insertRowOrIgnore t).rows → r ∈ t.rows ∨ r ∈ l := by
  induction l with
  | nil => intro t r h; exact Or.inl h
  | cons a rest ih =>
    intro t r h
    rcases ih (insertRowOrIgnore t a) r h with h1 | h1
    · unfold insertRowOrIgnore at h1
      split at h1
      · exact Or.inl h1
      · simp only [List.mem_append, List.mem_singleton] at h1
        rcases h1 with h1 | rfl
        · exact Or.inl h1
        · exact Or.inr (List.mem_cons_self _ _)
    · exact Or.inr (List.mem_cons_of_mem _ h1)

/-- Helper: rows produced by folding `insertOrIgnoreFile` over files come
from the initial table or are live-filtered projections of some file row. -/
theorem foldl_files_mem (files : List (List SrcRow)) :
    ∀ (t : DuckTable) (r : MirrorRow),
      r ∈ (files.foldl insertOrIgnoreFile t).rows →
      r ∈ t.rows ∨ ∃ f ∈ files, ∃ s ∈ f, pyLive s = true ∧ projectRow s = r := by
  induction files with
  | nil => intro t r h; exact Or.inl h
  | cons f rest ih =>
    intro t r h
    rcases ih (insertOrIgnoreFile t f) r h with h1 | h1
    · rcases foldl_insert_mem _ _ _ h1 with h2 | h2
      · exact Or.inl h2
      · right
        simp only [List.mem_map, List.mem_filter] at h2
        obtain ⟨s, ⟨hs, hl⟩, hp⟩ := h2
        exact ⟨f, List.mem_cons_self _ _, s, hs, hl, hp⟩
    · obtain ⟨g, hg, s, hs, hl, hp⟩ := h1
      exact Or.inr ⟨g, List.mem_cons_of_mem _ hg, s, hs, hl, hp⟩

/-- C9: every row of the mirror is live — each row of the table produced by
`update_duckdb` either was already in the pre-existing database or is the
projection of a row that passed `deleted IS NOT TRUE AND dead IS NOT TRUE`
(via the bulk `CREATE TABLE AS` path or the per-file `INSERT OR IGNORE`
path); and the hydration query only returns rows of the table, so hydration
returns only such rows even though it never re-checks the flags. -/
theorem C9_mirror_liveness (db : Option DuckTable) (mainRows : List SrcRow)
    (files : List (List SrcRow)) :
    (∀ r ∈ (update_duckdb db mainRows files).rows,
      (∃ t, db = some t ∧ r ∈ t.rows) ∨
      (∃ s ∈ mainRows, pyLive s = true ∧ projectRow s = r) ∨
      (∃ f ∈ files, ∃ s ∈ f, pyLive s = true ∧ projectRow s = r)) ∧
    (∀ hnIds typeFilter,
      ∀ r ∈ hydrateRows (update_duckdb db mainRows files).rows hnIds typeFilter,
        r ∈ (update_duckdb db mainRows files).rows) := by
  constructor
  · intro r hr
    unfold update_duckdb at hr
    rcases foldl_files_mem _ _ _ hr with h | h
    · cases db with
      | some t => exact Or.inl ⟨t, rfl, h⟩
      | none =>
        right; left
        simp only [Option.getD_none, createTableAs, List.mem_map, List.mem_filter] at h
        obtain ⟨s, ⟨hs, hl⟩, hp⟩ := h
        exact ⟨s, hs, hl, hp⟩
    · exact Or.inr (Or.inr h)
  · intro hnIds typeFilter r hr
    exact List.mem_of_mem_filter hr

/-- C9 witness: the liveness statement applied to a bulk-created mirror with
one live and one deleted source row. -/
theorem C9_mirror_liveness_witness :
    (∃ t, (none : Option DuckTable) = some t ∧
      projectRow ⟨1, some "story", none, 0, none, none, none, none, none, none⟩ ∈ t.rows) ∨
    (∃ s ∈ [(⟨1, some "story", none, 0, none, none, none, none, none, none⟩ : SrcRow),
            ⟨2, some "story", none, 0, none, none, none, none, some true, none⟩],
      pyLive s = true ∧
      projectRow s = projectRow ⟨1, some "story", none, 0, none, none, none, none, none, none⟩) ∨
    (∃ f ∈ ([] : List (List SrcRow)), ∃ s ∈ f, pyLive s = true ∧
      projectRow s = projectRow ⟨1, some "story", none, 0, none, none, none, none, none, none⟩) :=
  (C9_mirror_liveness none
      [⟨1, some "story", none, 0, none, none, none, none, none, none⟩,
       ⟨2, some "story", none, 0, none, none, none, none, some true, none⟩] []).1
    (projectRow ⟨1, some "story", none, 0, none, none, none, none, none, none⟩)
    (by decide)

/-- C7 witness: the postcondition at a concrete two-tier state. -/
theorem C7_rebuild_postcondition_witness :
    (rebuild_full_index ⟨some [1], some [10], some [2], some [20], some [10], true⟩).incrEmb
      = none ∧
    (rebuild_full_index ⟨some [1], some [10], some [2], some [20], some [10], true⟩).mainIds.getD []
      = (some [10] : Option (List Nat)).getD [] ++ (some [20] : Option (List Nat)).getD [] :=
  ⟨(C7_rebuild_postcondition ⟨some [1], some [10], some [2], some [20], some [10], true⟩
      (by decide) (by decide) (by decide)).1,
   (C7_rebuild_postcondition ⟨some [1], some [10], some [2], some [20], some [10], true⟩
      (by decide) (by decide) (by decide)).2.2.2.1⟩

end HN

